import Mathlib

/-!
Verification of the session execution engine of the okteto/remote SSH server
(`pkg/ssh/ssh.go`). Each Go function relevant to the checked properties is
shallowly embedded as an executable Lean definition; machine integers are
modelled as `Nat`/`Int` with explicit modular arithmetic where the Go code
depends on it.
-/

namespace Remote

/-! ## Exit Status Translator (`getExitStatusFromError`)

`syscall.WaitStatus` on Linux is a `uint32` wait-status word. The Go standard
library decodes it as follows (syscall_linux.go): `Exited()` holds when the low
seven bits are zero; `Signaled()` holds when the low seven bits are neither
0x00 (exited) nor 0x7f (stopped); `ExitStatus()` is `(w >> 8) & 0xff` when the
process exited and `-1` otherwise. -/

structure WaitStatus where
  status : Nat
deriving DecidableEq

def WaitStatus.exited (w : WaitStatus) : Bool := w.status % 128 == 0

def WaitStatus.signaled (w : WaitStatus) : Bool :=
  w.status % 128 != 127 && w.status % 128 != 0

def WaitStatus.exitStatusVal (w : WaitStatus) : Int :=
  if w.exited then ((w.status / 256) % 256 : Nat) else -1

/-- The shape of a non-nil error returned by `cmd.Start`/`cmd.Wait` as far as
`getExitStatusFromError` inspects it: either a typed `*exec.ExitError` (whose
`Sys()` is a `syscall.WaitStatus` on Unix, or something else on other
platforms, in which case only `Success()` is consulted), or any other error. -/
inductive ProcErr where
  | exitError (sys : Option WaitStatus) (success : Bool)
  | otherError
deriving DecidableEq

/-- Embedding of `getExitStatusFromError` (ssh.go:335-355): nil error gives 0;
a non-`ExitError` gives 1; an `ExitError` whose `Sys()` is not a `WaitStatus`
gives 0 if `Success()` else 1; otherwise the `WaitStatus`'s `ExitStatus()`. -/
def getExitStatusFromError : Option ProcErr → Int
  | none => 0
  | some ProcErr.otherError => 1
  | some (ProcErr.exitError none success) => if success then 0 else 1
  | some (ProcErr.exitError (some w) _) => w.exitStatusVal

/-! ## Command Builder (`Server.buildCmd`, ssh.go:682-697) -/

structure ProcessSpec where
  executable : List Char
  args : List (List Char)
  env : List (List Char)
deriving DecidableEq

/-- Embedding of `Server.buildCmd`: empty raw command gives the configured
shell with no arguments; otherwise `shell -c <rawCommand>` with the raw
command as one opaque argument. The environment starts from the zero value
of `cmd.Env`, then appends `os.Environ()` and then `s.Environ()`. -/
def buildCmd (shell rawCommand : List Char) (hostEnv sessionEnv : List (List Char)) :
    ProcessSpec :=
  if rawCommand.length = 0 then
    { executable := shell, args := [], env := ([] ++ hostEnv) ++ sessionEnv }
  else
    { executable := shell, args := ["-c".toList, rawCommand],
      env := ([] ++ hostEnv) ++ sessionEnv }

/-- C1 (counterexample): a child terminated by signal 9 (SIGKILL) yields the
wait-status word 9, which is `Signaled` and not `Exited`; the translator
returns `-1` for it — not the exit code 1 the claim requires. -/
theorem C1_signal_not_one :
    WaitStatus.signaled ⟨9⟩ = true
    ∧ getExitStatusFromError (some (ProcErr.exitError (some ⟨9⟩) false)) = -1
    ∧ ((-1 : Int) ≠ 1) := by
  refine ⟨rfl, rfl, by decide⟩

/-- C1 (amended): a nil wait result translates to 0; a clean exit (wait-status
word with low seven bits zero) translates to the OS-reported code
`(status >> 8) & 0xff`; a non-exited wait status (termination by signal, or a
stopped process) translates to `-1`; a wait error that is not a typed
`ExitError` translates to 1; a typed `ExitError` without a `WaitStatus`
translates to 0 if the error indicates the process succeeded, else 1. -/
theorem C1_exit_status_translation :
    getExitStatusFromError none = 0
    ∧ (∀ w : WaitStatus, ∀ s : Bool, w.exited = true →
        getExitStatusFromError (some (ProcErr.exitError (some w) s))
          = ((w.status / 256) % 256 : Nat))
    ∧ (∀ n : Nat, n < 256 →
        getExitStatusFromError (some (ProcErr.exitError (some ⟨256 * n⟩) false)) = n)
    ∧ (∀ w : WaitStatus, ∀ s : Bool, w.exited = false →
        getExitStatusFromError (some (ProcErr.exitError (some w) s)) = -1)
    ∧ getExitStatusFromError (some ProcErr.otherError) = 1
    ∧ (∀ s : Bool,
        getExitStatusFromError (some (ProcErr.exitError none s)) = if s then 0 else 1) := by
  refine ⟨rfl, ?_, ?_, ?_, rfl, ?_⟩
  · intro w s hw
    simp [getExitStatusFromError, WaitStatus.exitStatusVal, hw]
  · intro n hn
    have hex : WaitStatus.exited ⟨256 * n⟩ = true := by
      simp [WaitStatus.exited, Nat.mul_mod_right]
      omega
    simp [getExitStatusFromError, WaitStatus.exitStatusVal, hex]
    omega
  · intro w s hw
    simp [getExitStatusFromError, WaitStatus.exitStatusVal, hw]
  · intro s
    cases s <;> rfl

/-! ## Logging Interceptor (`loggingWriter`, `loggingReader`)

`loggingWriter.Write` (ssh.go:272-295) first forwards `p` to the wrapped
writer, then — if `n > 0` — appends `p[:n]` to its internal buffer, runs a
`bufio.Scanner` over the buffer contents and logs every non-empty scanned
line, resets the buffer, and finally re-buffers the segment of `p[:n]` after
its last newline when `p[:n]` does not end in a newline.

`bufio.Scanner` with the default `ScanLines` split emits one token per
newline boundary (with one trailing `\r` dropped) and, at end of input, also
emits the remaining non-empty bytes as a final token. -/

/-- `dropCR` of bufio.ScanLines: drop one trailing carriage return. -/
def dropCR (l : List Char) : List Char :=
  if l.getLast? = some '\r' then l.dropLast else l

def scanLinesAux (acc : List Char) : List Char → List (List Char)
  | [] => if acc = [] then [] else [dropCR acc]
  | c :: rest =>
    if c = '\n' then dropCR acc :: scanLinesAux [] rest
    else scanLinesAux (acc ++ [c]) rest

/-- The sequence of tokens produced by a `bufio.Scanner` with the `ScanLines`
split over `data`. -/
def scanLines (data : List Char) : List (List Char) := scanLinesAux [] data

/-- `bytes.TrimRight(l, "\n")`: remove all trailing newline bytes. -/
def trimRightNl (l : List Char) : List Char :=
  (l.reverse.dropWhile (fun c => c = '\n')).reverse

/-- `remaining[bytes.LastIndexByte(remaining, '\n')+1:]`: the segment after
the last newline (the whole list when it contains no newline). -/
def afterLastNl (l : List Char) : List Char :=
  (l.reverse.takeWhile (fun c => c ≠ '\n')).reverse

/-- `bytes.HasSuffix(l, "\n")`. -/
def endsWithNl (l : List Char) : Bool := l.getLast? = some '\n'

/-- Observable effect of one `loggingWriter.Write` call. -/
structure LwEffect where
  passed : List Char
  retN : Nat
  retErr : Option (List Char)
  newBuf : List Char
  entries : List (List Char)
deriving DecidableEq

/-- Embedding of `loggingWriter.Write`: `buf` is the interceptor's buffered
bytes before the call, `p` the written bytes, and `wn`/`werr` the return
values of the wrapped writer's `Write(p)` (which receives `p` verbatim and
whose results are returned unchanged). -/
def lwWrite (buf p : List Char) (wn : Nat) (werr : Option (List Char)) : LwEffect :=
  if 0 < wn then
    let taken := p.take wn
    let entries := (scanLines (buf ++ taken)).filter (fun l => l ≠ [])
    let remaining := trimRightNl taken
    let newBuf :=
      if 0 < remaining.length ∧ endsWithNl taken = false then afterLastNl remaining
      else []
    ⟨p, wn, werr, newBuf, entries⟩
  else ⟨p, wn, werr, buf, []⟩

/-- Embedding of `loggingWriter.Flush` (ssh.go:298-303): returns the emitted
entries and the buffer after the call. -/
def lwFlush (buf : List Char) : List (List Char) × List Char :=
  if 0 < buf.length then ([buf], []) else ([], buf)

/-- ASCII/Latin-1 white space as recognised by Go's `unicode.IsSpace`. -/
def isSpaceChar (c : Char) : Bool :=
  c = ' ' || c = '\t' || c = '\n' || c = '\x0b' || c = '\x0c' || c = '\r'
    || c = '\x85' || c = '\xa0'

/-- `strings.TrimSpace` (over the Latin-1 white-space set). -/
def trimSpace (l : List Char) : List Char :=
  ((l.dropWhile isSpaceChar).reverse.dropWhile isSpaceChar).reverse

/-- Embedding of `loggingReader.Read` (ssh.go:320-333): `rn`/`rerr` are the
wrapped reader's results and `p` the bytes it placed in the caller's buffer;
returns the pass-through results together with the emitted audit entries. -/
def lrRead (p : List Char) (rn : Nat) (rerr : Option (List Char)) :
    (Nat × Option (List Char)) × List (List Char) :=
  let data := p.take rn
  if 0 < rn ∧ trimSpace data ≠ [] then ((rn, rerr), [trimSpace data])
  else ((rn, rerr), [])

/-- C4: writing `"a\nb\nc"` through the interceptor (empty buffer, wrapped
writer accepting all 5 bytes) passes the bytes through unchanged with the
wrapped writer's return values, but — because the scanner also emits the
final partial token — it logs the three entries `"a"`, `"b"`, `"c"` at write
time (not two), keeps `"c"` buffered, and a subsequent flush emits `"c"` a
second time. -/
theorem C4_logging_writer_partial_line :
    (lwWrite [] "a\nb\nc".toList 5 none).passed = "a\nb\nc".toList
    ∧ (lwWrite [] "a\nb\nc".toList 5 none).retN = 5
    ∧ (lwWrite [] "a\nb\nc".toList 5 none).retErr = none
    ∧ (lwWrite [] "a\nb\nc".toList 5 none).entries
        = ["a".toList, "b".toList, "c".toList]
    ∧ (lwWrite [] "a\nb\nc".toList 5 none).newBuf = "c".toList
    ∧ (lwFlush (lwWrite [] "a\nb\nc".toList 5 none).newBuf).1 = ["c".toList]
    ∧ (lwWrite [] "a\nb\nc".toList 5 none).entries ≠ ["a".toList, "b".toList] := by
  refine ⟨rfl, rfl, rfl, by decide, by decide, by decide, by decide⟩

/-- C10: the interceptor suppresses blank content from the audit stream: a
scanned line that is empty is never logged by `loggingWriter.Write`, a read
whose content is only white space produces no audit entry, and hence some
non-empty byte sequences (a write of `"\n\n\n"`, a read of `" \t "`) produce
zero audit entries even though the bytes are delivered unchanged. -/
theorem C10_blank_suppression :
    (∀ buf p wn werr, [] ∉ (lwWrite buf p wn werr).entries)
    ∧ (∀ p rn rerr, (p.take rn).all isSpaceChar = true → (lrRead p rn rerr).2 = [])
    ∧ ((lwWrite [] "\n\n\n".toList 3 none).entries = []
        ∧ (lwWrite [] "\n\n\n".toList 3 none).passed = "\n\n\n".toList
        ∧ (lwWrite [] "\n\n\n".toList 3 none).retN = 3
        ∧ "\n\n\n".toList ≠ [])
    ∧ ((lrRead " \t ".toList 3 none).1 = (3, none)
        ∧ (lrRead " \t ".toList 3 none).2 = []
        ∧ " \t ".toList ≠ []) := by
  refine ⟨?_, ?_, ⟨by decide, rfl, rfl, by decide⟩, ⟨by decide, by decide, by decide⟩⟩
  · intro buf p wn werr
    unfold lwWrite
    by_cases h : 0 < wn
    · simp only [h, if_true]
      intro hmem
      have := (List.mem_filter.mp hmem).2
      simp at this
    · simp [h]
  · intro p rn rerr hsp
    have hts : trimSpace (p.take rn) = [] := by
      have hall : ∀ x ∈ p.take rn, isSpaceChar x = true := by
        simpa [List.all_eq_true] using hsp
      have h1 : (p.take rn).dropWhile isSpaceChar = [] :=
        List.dropWhile_eq_nil_iff.mpr hall
      simp [trimSpace, h1]
    simp [lrRead, hts]

/-- C2: for every session, an empty raw command yields the configured shell
with an empty argument vector, and a non-empty raw command yields the argv
`[shell, "-c", rawCommand]` with the raw command as a single opaque element;
in both cases the environment is the host environment followed by the
session-supplied entries. -/
theorem C2_build_cmd :
    (∀ shell hostEnv sessionEnv,
        buildCmd shell [] hostEnv sessionEnv
          = { executable := shell, args := [], env := hostEnv ++ sessionEnv })
    ∧ (∀ shell raw hostEnv sessionEnv, raw ≠ [] →
        (buildCmd shell raw hostEnv sessionEnv).executable
              :: (buildCmd shell raw hostEnv sessionEnv).args
            = [shell, "-c".toList, raw]
          ∧ (buildCmd shell raw hostEnv sessionEnv).env = hostEnv ++ sessionEnv) := by
  constructor
  · intro shell hostEnv sessionEnv
    simp [buildCmd]
  · intro shell raw hostEnv sessionEnv hraw
    have h : ¬ raw.length = 0 := by simpa [List.length_eq_zero] using hraw
    simp [buildCmd, h]

/-! ## Error reporting (`sendErrAndExit`, ssh.go:411-420) and the
session dispatcher (`Server.connectionHandler`, ssh.go:493-557) -/

/-- `strings.TrimPrefix`: drop `pre` from the front of `l` when present. -/
def trimPreList (pre l : List Char) : List Char :=
  if pre.isPrefixOf l then l.drop pre.length else l

def execPre : List Char := "exec: ".toList

/-- Embedding of `sendErrAndExit`: given the error's message and its
classification, returns the bytes written to the session's error stream and
the status passed to `s.Exit`. -/
def sendErrAndExit (msg : List Char) (e : ProcErr) : List Char × Int :=
  (trimPreList execPre msg, getExitStatusFromError (some e))

/-- Observable per-session effects of the non-PTY path relevant to the
process-start-failure property. -/
structure SessionEffect where
  copyTasksStarted : Bool
  forwardedOut : List Char
  stderrBytes : List Char
  exitStatuses : List Int
deriving DecidableEq

/-- Outcome of `handleNoTTY`'s interaction with the child process: a pipe
acquisition failed before starting (an OS error, never a typed `ExitError`),
`cmd.Start` failed (an `exec.Error`/`PathError`, never a typed `ExitError`),
or the process started, the copy tasks ran, and `cmd.Wait` returned the given
result. -/
inductive NoTTYOutcome where
  | pipeFail (msg : List Char)
  | startFail (msg : List Char)
  | ran (outBytes errBytes : List Char) (waitErr : Option ProcErr) (waitMsg : List Char)

/-- Embedding of `handleNoTTY` (ssh.go:422-491) composed with its caller
`connectionHandler`'s reporting: a pipe or start failure returns before any
copy goroutine is started and is reported through `sendErrAndExit`; a started
process runs the copy tasks, and the wait result is reported as `s.Exit 0`
on nil error or through `sendErrAndExit` otherwise. -/
def runNoTTY : NoTTYOutcome → SessionEffect
  | NoTTYOutcome.pipeFail msg =>
    let r := sendErrAndExit msg ProcErr.otherError
    ⟨false, [], r.1, [r.2]⟩
  | NoTTYOutcome.startFail msg =>
    let r := sendErrAndExit msg ProcErr.otherError
    ⟨false, [], r.1, [r.2]⟩
  | NoTTYOutcome.ran outB errB none _ => ⟨true, outB, errB, [0]⟩
  | NoTTYOutcome.ran outB errB (some e) wmsg =>
    let r := sendErrAndExit wmsg e
    ⟨true, outB, errB ++ r.1, [r.2]⟩

/-- Result of one bridge invocation as seen by the dispatcher. -/
inductive BridgeOutcome where
  | success
  | failure (e : ProcErr) (msg : List Char)

/-- The dispatcher inputs that decide which reporting path
`connectionHandler` takes. -/
structure DispatchInput where
  agentRequested : Bool
  agentListenerOk : Bool
  isPty : Bool
  bridge : BridgeOutcome

/-- Embedding of the exit-status reports (`s.Exit` calls) performed by
`connectionHandler`: when agent forwarding was requested and the agent
listener fails to start, the handler returns without reporting; otherwise the
chosen bridge's outcome is reported exactly once — `s.Exit 0` on success,
`sendErrAndExit` on failure. -/
def exitCalls (i : DispatchInput) : List Int :=
  if i.agentRequested = true ∧ i.agentListenerOk = false then []
  else
    match i.bridge with
    | BridgeOutcome.success => [0]
    | BridgeOutcome.failure e msg => [(sendErrAndExit msg e).2]

/-- C5: a session whose process fails to start reports exit status 1, writes
a non-empty sanitized message (the raw message with a leading `"exec: "`
stripped) to the client's error stream, starts no copy tasks and forwards no
bytes. The hypothesis holds for every Go start-failure message, which extends
the 6-byte prefix `"exec: "`. -/
theorem C5_start_failure (msg : List Char) (h : 6 < msg.length) :
    (runNoTTY (NoTTYOutcome.startFail msg)).exitStatuses = [1]
    ∧ (runNoTTY (NoTTYOutcome.startFail msg)).stderrBytes ≠ []
    ∧ (runNoTTY (NoTTYOutcome.startFail msg)).copyTasksStarted = false
    ∧ (runNoTTY (NoTTYOutcome.startFail msg)).forwardedOut = [] := by
  refine ⟨rfl, ?_, rfl, rfl⟩
  show trimPreList execPre msg ≠ []
  unfold trimPreList
  split
  · have hlen : (msg.drop execPre.length).length = msg.length - execPre.length :=
      List.length_drop _ _
    have h6 : execPre.length = 6 := by decide
    intro hnil
    rw [hnil] at hlen
    simp at hlen
    omega
  · intro hnil
    rw [hnil] at h
    simp at h

/-- C5 (witness): the concrete Go message for an unresolvable executable. -/
theorem C5_start_failure_witness :
    6 < ("exec: \x22badcommand\x22: executable file not found in $PATH".toList).length
    ∧ ((runNoTTY (NoTTYOutcome.startFail
          "exec: \x22badcommand\x22: executable file not found in $PATH".toList)).exitStatuses = [1]
        ∧ (runNoTTY (NoTTYOutcome.startFail
          "exec: \x22badcommand\x22: executable file not found in $PATH".toList)).stderrBytes ≠ []
        ∧ (runNoTTY (NoTTYOutcome.startFail
          "exec: \x22badcommand\x22: executable file not found in $PATH".toList)).copyTasksStarted = false
        ∧ (runNoTTY (NoTTYOutcome.startFail
          "exec: \x22badcommand\x22: executable file not found in $PATH".toList)).forwardedOut = []) :=
  ⟨by decide, C5_start_failure _ (by decide)⟩

/-- C6 (counterexample): when agent forwarding is requested and the agent
listener fails to start, `connectionHandler` returns without invoking the
exit-status reporting primitive at all — zero invocations, not one. -/
theorem C6_agent_failure_no_report :
    exitCalls ⟨true, false, false, BridgeOutcome.success⟩ = []
    ∧ (exitCalls ⟨true, false, false, BridgeOutcome.success⟩).length ≠ 1 := by
  refine ⟨rfl, by decide⟩

/-- C6 (amended): the exit-status reporting primitive is invoked exactly once
per session on every path that reaches a bridge (PTY and non-PTY, success and
failure, including bridge start failures), and zero times on the
agent-forwarding-listener failure path, where the dispatcher aborts the
session without spawning a process. -/
theorem C6_exit_reported_once :
    (∀ i : DispatchInput, (i.agentRequested = false ∨ i.agentListenerOk = true) →
        (exitCalls i).length = 1)
    ∧ (∀ i : DispatchInput, i.agentRequested = true → i.agentListenerOk = false →
        exitCalls i = []) := by
  constructor
  · intro i hi
    unfold exitCalls
    have hcond : ¬ (i.agentRequested = true ∧ i.agentListenerOk = false) := by
      rcases hi with h | h <;> simp [h]
    simp only [hcond, if_false]
    cases i.bridge <;> rfl
  · intro i h1 h2
    simp [exitCalls, h1, h2]

/-! ## PTY Bridge (`handlePTY`, ssh.go:362-409) -/

/-- The grace period (in seconds) the PTY path gives the output-drain task:
`time.NewTicker(1 * time.Second)`. -/
def ptyGraceSeconds : Nat := 1

/-- The observable ways `handlePTY` can finish. -/
inductive PTYResult where
  | startFailed (msg : List Char)
  | waitFailed (e : ProcErr)
  | drained
  | graceExpired
deriving DecidableEq

/-- The inputs deciding `handlePTY`'s control flow: whether `pty.Start`
succeeded, the result of `cmd.Wait`, and whether the stdout-drain task
finished within the grace period. -/
structure PTYRun where
  ptyStartOk : Bool
  startMsg : List Char
  waitErr : Option ProcErr
  drainDoneWithinGrace : Bool

/-- Embedding of `handlePTY`'s control flow: a pty start failure returns
immediately; a wait error returns immediately (without the grace select);
otherwise the select completes either through the drain task's channel or
through the 1-second ticker — it always completes. -/
def handlePTYModel (r : PTYRun) : PTYResult :=
  if r.ptyStartOk = false then PTYResult.startFailed r.startMsg
  else
    match r.waitErr with
    | some e => PTYResult.waitFailed e
    | none =>
      if r.drainDoneWithinGrace then PTYResult.drained else PTYResult.graceExpired

/-- C7 (counterexample): when `cmd.Wait` returns an error (a child that did
not terminate cleanly), `handlePTY` returns at once — the drain task is given
no grace period at all, contradicting the claim that every termination
outcome grants it one. -/
theorem C7_wait_error_skips_grace :
    handlePTYModel ⟨true, [], some ProcErr.otherError, false⟩
        = PTYResult.waitFailed ProcErr.otherError
    ∧ PTYResult.waitFailed ProcErr.otherError ≠ PTYResult.drained
    ∧ PTYResult.waitFailed ProcErr.otherError ≠ PTYResult.graceExpired := by
  refine ⟨rfl, by decide, by decide⟩

/-- C7 (amended): after the blocking wait returns with no error, the drain
task is granted a bounded grace period of one second and is abandoned
unconditionally once it elapses (the select always completes, via the drain
channel or the ticker); when the wait returns an error the drain task is
abandoned immediately with no grace period. In neither case does the session
block indefinitely on the drain. -/
theorem C7_pty_grace (r : PTYRun) (h : r.ptyStartOk = true) :
    (r.waitErr = none →
        (r.drainDoneWithinGrace = true → handlePTYModel r = PTYResult.drained)
        ∧ (r.drainDoneWithinGrace = false → handlePTYModel r = PTYResult.graceExpired))
    ∧ (∀ e, r.waitErr = some e → handlePTYModel r = PTYResult.waitFailed e)
    ∧ ptyGraceSeconds = 1 := by
  refine ⟨?_, ?_, rfl⟩
  · intro hw
    constructor <;> intro hd <;> simp [handlePTYModel, h, hw, hd]
  · intro e hw
    simp [handlePTYModel, h, hw]

/-- C7 (witness): a clean wait with a drain task that misses the grace
period. -/
theorem C7_pty_grace_witness :
    (PTYRun.mk true [] none false).ptyStartOk = true
    ∧ (((PTYRun.mk true [] none false).waitErr = none →
          ((PTYRun.mk true [] none false).drainDoneWithinGrace = true →
            handlePTYModel (PTYRun.mk true [] none false) = PTYResult.drained)
          ∧ ((PTYRun.mk true [] none false).drainDoneWithinGrace = false →
            handlePTYModel (PTYRun.mk true [] none false) = PTYResult.graceExpired))
        ∧ (∀ e, (PTYRun.mk true [] none false).waitErr = some e →
            handlePTYModel (PTYRun.mk true [] none false) = PTYResult.waitFailed e)
        ∧ ptyGraceSeconds = 1) :=
  ⟨rfl, C7_pty_grace (PTYRun.mk true [] none false) rfl⟩

/-! ## Authorization Gate (`Server.authorize`, ssh.go:589-598) and
credentials loading (`LoadAuthorizedKeys`, ssh.go:561-587)

`ssh.KeysEqual` compares the canonical wire marshalling of the two keys,
i.e. structural (algorithm + key material) equality, which the `PublicKey`
structure's equality captures. `ssh.ParseAuthorizedKey` is an external
collaborator; a credentials file is modelled as the sequence of outcomes of
its successive parse steps. -/

structure PublicKey where
  alg : List Char
  material : List Nat
deriving DecidableEq

/-- `gliderlabs/ssh.KeysEqual`: equality of the marshalled wire form, which
is injective in (algorithm, key material). -/
def KeysEqual (a b : PublicKey) : Bool := a == b

/-- Embedding of `Server.authorize`: scan the trusted list and accept on the
first structurally equal entry. -/
def authorize (trusted : List PublicKey) (key : PublicKey) : Bool :=
  trusted.any (fun k => KeysEqual key k)

/-- Outcome of one `ssh.ParseAuthorizedKey` step on the remaining bytes. -/
inductive ParseOutcome where
  | ok (k : PublicKey)
  | bad
deriving DecidableEq

/-- The states the credentials file can be in, as distinguished by
`ioutil.ReadFile` + `os.IsNotExist`: absent, unreadable for another reason,
or present with the given sequence of parse outcomes (`[]` for a 0-byte
file). -/
inductive FileState where
  | missing
  | readFail
  | present (records : List ParseOutcome)

inductive LoadErr where
  | ioError
  | parseError
  | emptyFile
deriving DecidableEq

/-- The parse loop of `LoadAuthorizedKeys`: consume records until the bytes
are exhausted, failing the whole load on the first unparseable record. -/
def loadLoop : List ParseOutcome → Option (List PublicKey)
  | [] => some []
  | ParseOutcome.bad :: _ => none
  | ParseOutcome.ok k :: rest => (loadLoop rest).map (fun ks => k :: ks)

/-- Embedding of `LoadAuthorizedKeys`: a missing file yields `nil, nil`
(explicitly-empty, no error); any other read error is returned; a parse
error aborts the load; a load that produced zero keys is the
`"<path> was empty"` error; otherwise the keys in file order. -/
def LoadAuthorizedKeys : FileState → Except LoadErr (List PublicKey)
  | FileState.missing => Except.ok []
  | FileState.readFail => Except.error LoadErr.ioError
  | FileState.present recs =>
    match loadLoop recs with
    | none => Except.error LoadErr.parseError
    | some keys =>
      if keys.length = 0 then Except.error LoadErr.emptyFile else Except.ok keys

theorem loadLoop_bad {recs : List ParseOutcome} (h : ParseOutcome.bad ∈ recs) :
    loadLoop recs = none := by
  induction recs with
  | nil => cases h
  | cons r rest ih =>
    cases r with
    | bad => rfl
    | ok k =>
      have hr : ParseOutcome.bad ∈ rest := by
        cases h with
        | tail _ h' => exact h'
      simp [loadLoop, ih hr]

theorem loadLoop_all_ok (ks : List PublicKey) :
    loadLoop (ks.map ParseOutcome.ok) = some ks := by
  induction ks with
  | nil => rfl
  | cons k rest ih => simp [loadLoop, ih]

/-- C8: loading the authorized-credentials file: a missing file returns an
explicitly-empty result with no error; a present-but-empty file (zero valid
records) returns a load error; any unparseable record returns a load error
with nothing partially loaded; a file with `N ≥ 1` valid records returns
exactly those `N` credentials in file order. -/
theorem C8_load_authorized_keys :
    LoadAuthorizedKeys FileState.missing = Except.ok []
    ∧ (∃ e, LoadAuthorizedKeys (FileState.present []) = Except.error e)
    ∧ (∀ recs, ParseOutcome.bad ∈ recs →
        ∃ e, LoadAuthorizedKeys (FileState.present recs) = Except.error e)
    ∧ (∀ ks : List PublicKey, ks ≠ [] →
        LoadAuthorizedKeys (FileState.present (ks.map ParseOutcome.ok))
          = Except.ok ks) := by
  refine ⟨rfl, ⟨LoadErr.emptyFile, rfl⟩, ?_, ?_⟩
  · intro recs h
    exact ⟨LoadErr.parseError, by simp [LoadAuthorizedKeys, loadLoop_bad h]⟩
  · intro ks hks
    have hlen : ¬ ks.length = 0 := by simpa [List.length_eq_zero] using hks
    simp [LoadAuthorizedKeys, loadLoop_all_ok, hlen]

/-- C9: `authorize` accepts exactly the credentials structurally equal to
some trusted entry; in particular `authorize [k] k` holds and
`authorize [k] k2` fails for every structurally distinct `k2`, including one
with key material of identical length. -/
theorem C9_authorize_iff :
    (∀ trusted key, authorize trusted key = true ↔ ∃ k ∈ trusted, key = k)
    ∧ (∀ k, authorize [k] k = true)
    ∧ (∀ k k2, k ≠ k2 → authorize [k] k2 = false)
    ∧ (∀ k k2, k ≠ k2 → k.material.length = k2.material.length →
        authorize [k] k2 = false) := by
  have hiff : ∀ trusted key, authorize trusted key = true ↔ ∃ k ∈ trusted, key = k := by
    intro trusted key
    simp [authorize, KeysEqual, List.any_eq_true, beq_iff_eq]
  refine ⟨hiff, ?_, ?_, ?_⟩
  · intro k
    exact (hiff [k] k).mpr ⟨k, by simp⟩
  · intro k k2 hne
    rw [Bool.eq_false_iff]
    intro hc
    rcases (hiff [k] k2).mp hc with ⟨k', hk', heq⟩
    simp at hk'
    exact hne (by rw [hk'] at heq; exact heq.symm)
  · intro k k2 hne _
    rw [Bool.eq_false_iff]
    intro hc
    rcases (hiff [k] k2).mp hc with ⟨k', hk', heq⟩
    simp at hk'
    exact hne (by rw [hk'] at heq; exact heq.symm)

/-! ## Pipe Bridge concurrency (`handleNoTTY`, ssh.go:422-491, and its caller)

The streaming phase of `handleNoTTY` after a successful `cmd.Start` consists
of four sequential threads:
- the main routine: spawn the stdin-copy goroutine, spawn the stdout-copy
  goroutine (`wg.Add(1)` before it), spawn the stderr-copy goroutine
  (`wg.Add(1)`), `wg.Wait()`, `cmd.Wait()`, and then the caller's exit
  report (`s.Exit` / `sendErrAndExit`);
- the stdin goroutine: `io.Copy` completion, `Flush`, deferred
  `stdin.Close()`;
- the stdout goroutine: `io.Copy` completion, `Flush`, deferred `wg.Done()`;
- the stderr goroutine: likewise.

A configuration holds one program counter per thread and the trace of events
so far; a scheduler step appends the next event of some thread, subject to
the code's synchronisation: a goroutine's events require its spawn event,
and `wg.Wait()` requires both `wg.Done()` events (the WaitGroup counter has
reached zero). -/

inductive Ev where
  | cmdStart
  | spawnIn
  | spawnOut
  | spawnErr
  | stdinCopy
  | stdinFlush
  | stdinClose
  | stdoutCopy
  | stdoutFlush
  | stdoutDone
  | stderrCopy
  | stderrFlush
  | stderrDone
  | wgWait
  | cmdWait
  | reportExit
deriving DecidableEq

/-- The main routine's event sequence (ssh.go:441-491 and ssh.go:551-556). -/
def mainEv : Nat → Option Ev
  | 0 => some Ev.cmdStart
  | 1 => some Ev.spawnIn
  | 2 => some Ev.spawnOut
  | 3 => some Ev.spawnErr
  | 4 => some Ev.wgWait
  | 5 => some Ev.cmdWait
  | 6 => some Ev.reportExit
  | _ => none

/-- The stdin goroutine's event sequence (ssh.go:449-455). -/
def tinEv : Nat → Option Ev
  | 0 => some Ev.stdinCopy
  | 1 => some Ev.stdinFlush
  | 2 => some Ev.stdinClose
  | _ => none

/-- The stdout goroutine's event sequence (ssh.go:462-469). -/
def toutEv : Nat → Option Ev
  | 0 => some Ev.stdoutCopy
  | 1 => some Ev.stdoutFlush
  | 2 => some Ev.stdoutDone
  | _ => none

/-- The stderr goroutine's event sequence (ssh.go:474-481). -/
def terrEv : Nat → Option Ev
  | 0 => some Ev.stderrCopy
  | 1 => some Ev.stderrFlush
  | 2 => some Ev.stderrDone
  | _ => none

structure Conf where
  pm : Nat
  pi : Nat
  po : Nat
  pe : Nat
  tr : List Ev
deriving DecidableEq

def initConf : Conf := ⟨0, 0, 0, 0, []⟩

/-- One scheduler step: some thread executes its next event. The WaitGroup
guard on `wgWait` and the spawn guards are the only synchronisation in the
code. -/
inductive Step : Conf → Conf → Prop where
  | main {c : Conf} (e : Ev) (h : mainEv c.pm = some e)
      (hw : e = Ev.wgWait → (Ev.stdoutDone ∈ c.tr ∧ Ev.stderrDone ∈ c.tr)) :
      Step c ⟨c.pm + 1, c.pi, c.po, c.pe, c.tr ++ [e]⟩
  | tin {c : Conf} (e : Ev) (h : tinEv c.pi = some e) (hs : Ev.spawnIn ∈ c.tr) :
      Step c ⟨c.pm, c.pi + 1, c.po, c.pe, c.tr ++ [e]⟩
  | tout {c : Conf} (e : Ev) (h : toutEv c.po = some e) (hs : Ev.spawnOut ∈ c.tr) :
      Step c ⟨c.pm, c.pi, c.po + 1, c.pe, c.tr ++ [e]⟩
  | terr {c : Conf} (e : Ev) (h : terrEv c.pe = some e) (hs : Ev.spawnErr ∈ c.tr) :
      Step c ⟨c.pm, c.pi, c.po, c.pe + 1, c.tr ++ [e]⟩

def Reach (a b : Conf) : Prop := Relation.ReflTransGen Step a b

/-- `before a b t`: in trace `t`, every occurrence of `b` is preceded by an
occurrence of `a`. -/
def before (a b : Ev) (t : List Ev) : Prop :=
  ∀ l1 l2, t = l1 ++ b :: l2 → a ∈ l1

theorem before_nil {a b : Ev} : before a b [] := by
  intro l1 l2 h
  simp at h

theorem before_snoc {a b e : Ev} {t : List Ev} (h : before a b t)
    (he : e = b → a ∈ t) : before a b (t ++ [e]) := by
  intro l1 l2 hsplit
  rcases List.eq_nil_or_concat l2 with rfl | ⟨l2h, x, rfl⟩
  · have hp := List.append_inj' hsplit (by rfl)
    obtain ⟨h1, h2⟩ := hp
    have hee : e = b := by simpa using h2
    rw [← h1]
    exact he hee
  · have hre : t ++ [e] = (l1 ++ b :: l2h) ++ [x] := by
      simpa [List.append_assoc] using hsplit
    obtain ⟨h1, _⟩ := List.append_inj' hre (by rfl)
    exact h l1 l2h h1

theorem mainEv_at4 {e : Ev} (h : mainEv 4 = some e) : e = Ev.wgWait := by
  simpa [mainEv] using h.symm

theorem mainEv_at5 {e : Ev} (h : mainEv 5 = some e) : e = Ev.cmdWait := by
  simpa [mainEv] using h.symm

theorem mainEv_cmdWait {n : Nat} (h : mainEv n = some Ev.cmdWait) : n = 5 := by
  rcases n with _|_|_|_|_|_|_|n <;> simp [mainEv] at h
  rfl

theorem mainEv_reportExit {n : Nat} (h : mainEv n = some Ev.reportExit) : n = 6 := by
  rcases n with _|_|_|_|_|_|_|n <;> simp [mainEv] at h
  rfl

theorem mainEv_ne_inClose {n : Nat} : mainEv n ≠ some Ev.stdinClose := by
  rcases n with _|_|_|_|_|_|_|n <;> simp [mainEv]

theorem tinEv_at0 {e : Ev} (h : tinEv 0 = some e) : e = Ev.stdinCopy := by
  simpa [tinEv] using h.symm

theorem tinEv_close {n : Nat} (h : tinEv n = some Ev.stdinClose) : n = 2 := by
  rcases n with _|_|_|n <;> simp [tinEv] at h
  rfl

theorem tinEv_ne_cmdWait {n : Nat} : tinEv n ≠ some Ev.cmdWait := by
  rcases n with _|_|_|n <;> simp [tinEv]

theorem tinEv_ne_reportExit {n : Nat} : tinEv n ≠ some Ev.reportExit := by
  rcases n with _|_|_|n <;> simp [tinEv]

theorem toutEv_ne_cmdWait {n : Nat} : toutEv n ≠ some Ev.cmdWait := by
  rcases n with _|_|_|n <;> simp [toutEv]

theorem toutEv_ne_reportExit {n : Nat} : toutEv n ≠ some Ev.reportExit := by
  rcases n with _|_|_|n <;> simp [toutEv]

theorem toutEv_ne_inClose {n : Nat} : toutEv n ≠ some Ev.stdinClose := by
  rcases n with _|_|_|n <;> simp [toutEv]

theorem terrEv_ne_cmdWait {n : Nat} : terrEv n ≠ some Ev.cmdWait := by
  rcases n with _|_|_|n <;> simp [terrEv]

theorem terrEv_ne_reportExit {n : Nat} : terrEv n ≠ some Ev.reportExit := by
  rcases n with _|_|_|n <;> simp [terrEv]

theorem terrEv_ne_inClose {n : Nat} : terrEv n ≠ some Ev.stdinClose := by
  rcases n with _|_|_|n <;> simp [terrEv]

/-- The inductive invariant of the Pipe Bridge scheduler. -/
def Inv (c : Conf) : Prop :=
  (1 ≤ c.pi → Ev.stdinCopy ∈ c.tr)
  ∧ (5 ≤ c.pm → Ev.stdoutDone ∈ c.tr ∧ Ev.stderrDone ∈ c.tr)
  ∧ (6 ≤ c.pm → Ev.cmdWait ∈ c.tr)
  ∧ before Ev.stdoutDone Ev.cmdWait c.tr
  ∧ before Ev.stderrDone Ev.cmdWait c.tr
  ∧ before Ev.cmdWait Ev.reportExit c.tr
  ∧ before Ev.stdinCopy Ev.stdinClose c.tr

theorem inv_init : Inv initConf := by
  refine ⟨?_, ?_, ?_, before_nil, before_nil, before_nil, before_nil⟩
    <;> intro h <;> simp [initConf] at h

theorem inv_step {c c' : Conf} (hs : Step c c') (hi : Inv c) : Inv c' := by
  obtain ⟨i1, i2, i3, b1, b2, b3, b4⟩ := hi
  cases hs with
  | main e h hw =>
    refine ⟨?_, ?_, ?_, ?_, ?_, ?_, ?_⟩
    · intro hpi
      exact List.mem_append_left _ (i1 hpi)
    · intro h5
      replace h5 : 5 ≤ c.pm + 1 := h5
      by_cases hpm : 5 ≤ c.pm
      · obtain ⟨x, y⟩ := i2 hpm
        exact ⟨List.mem_append_left _ x, List.mem_append_left _ y⟩
      · have h4 : c.pm = 4 := by omega
        obtain ⟨x, y⟩ := hw (mainEv_at4 (h4 ▸ h))
        exact ⟨List.mem_append_left _ x, List.mem_append_left _ y⟩
    · intro h6
      replace h6 : 6 ≤ c.pm + 1 := h6
      by_cases hpm : 6 ≤ c.pm
      · exact List.mem_append_left _ (i3 hpm)
      · have h5 : c.pm = 5 := by omega
        have he : e = Ev.cmdWait := mainEv_at5 (h5 ▸ h)
        subst he
        exact List.mem_append_right _ (by simp)
    · refine before_snoc b1 ?_
      intro he
      have h5 : c.pm = 5 := mainEv_cmdWait (he ▸ h)
      exact (i2 (by omega)).1
    · refine before_snoc b2 ?_
      intro he
      have h5 : c.pm = 5 := mainEv_cmdWait (he ▸ h)
      exact (i2 (by omega)).2
    · refine before_snoc b3 ?_
      intro he
      have h6 : c.pm = 6 := mainEv_reportExit (he ▸ h)
      exact i3 (by omega)
    · refine before_snoc b4 ?_
      intro he
      exact absurd (he ▸ h) mainEv_ne_inClose
  | tin e h hs' =>
    refine ⟨?_, ?_, ?_, ?_, ?_, ?_, ?_⟩
    · intro _
      by_cases hpi : 1 ≤ c.pi
      · exact List.mem_append_left _ (i1 hpi)
      · have h0 : c.pi = 0 := by omega
        have he : e = Ev.stdinCopy := tinEv_at0 (h0 ▸ h)
        subst he
        exact List.mem_append_right _ (by simp)
    · intro h5
      obtain ⟨x, y⟩ := i2 h5
      exact ⟨List.mem_append_left _ x, List.mem_append_left _ y⟩
    · intro h6
      exact List.mem_append_left _ (i3 h6)
    · refine before_snoc b1 ?_
      intro he
      exact absurd (he ▸ h) tinEv_ne_cmdWait
    · refine before_snoc b2 ?_
      intro he
      exact absurd (he ▸ h) tinEv_ne_cmdWait
    · refine before_snoc b3 ?_
      intro he
      exact absurd (he ▸ h) tinEv_ne_reportExit
    · refine before_snoc b4 ?_
      intro he
      have h2 : c.pi = 2 := tinEv_close (he ▸ h)
      exact i1 (by omega)
  | tout e h hs' =>
    refine ⟨?_, ?_, ?_, ?_, ?_, ?_, ?_⟩
    · intro hpi
      exact List.mem_append_left _ (i1 hpi)
    · intro h5
      obtain ⟨x, y⟩ := i2 h5
      exact ⟨List.mem_append_left _ x, List.mem_append_left _ y⟩
    · intro h6
      exact List.mem_append_left _ (i3 h6)
    · refine before_snoc b1 ?_
      intro he
      exact absurd (he ▸ h) toutEv_ne_cmdWait
    · refine before_snoc b2 ?_
      intro he
      exact absurd (he ▸ h) toutEv_ne_cmdWait
    · refine before_snoc b3 ?_
      intro he
      exact absurd (he ▸ h) toutEv_ne_reportExit
    · refine before_snoc b4 ?_
      intro he
      exact absurd (he ▸ h) toutEv_ne_inClose
  | terr e h hs' =>
    refine ⟨?_, ?_, ?_, ?_, ?_, ?_, ?_⟩
    · intro hpi
      exact List.mem_append_left _ (i1 hpi)
    · intro h5
      obtain ⟨x, y⟩ := i2 h5
      exact ⟨List.mem_append_left _ x, List.mem_append_left _ y⟩
    · intro h6
      exact List.mem_append_left _ (i3 h6)
    · refine before_snoc b1 ?_
      intro he
      exact absurd (he ▸ h) terrEv_ne_cmdWait
    · refine before_snoc b2 ?_
      intro he
      exact absurd (he ▸ h) terrEv_ne_cmdWait
    · refine before_snoc b3 ?_
      intro he
      exact absurd (he ▸ h) terrEv_ne_reportExit
    · refine before_snoc b4 ?_
      intro he
      exact absurd (he ▸ h) terrEv_ne_inClose

theorem inv_reach {c : Conf} (h : Reach initConf c) : Inv c := by
  induction h with
  | refl => exact inv_init
  | tail _ hstep ih => exact inv_step hstep ih

/-- A scheduler choice: which thread takes the next step. -/
inductive Choice where
  | m
  | i
  | o
  | e
deriving DecidableEq

/-- Executable scheduler: apply the chosen thread's next step when its guard
allows it. -/
def stepFn (c : Conf) : Choice → Option Conf
  | Choice.m =>
    match mainEv c.pm with
    | none => none
    | some ev =>
      if ev = Ev.wgWait ∧ ¬ (Ev.stdoutDone ∈ c.tr ∧ Ev.stderrDone ∈ c.tr) then none
      else some ⟨c.pm + 1, c.pi, c.po, c.pe, c.tr ++ [ev]⟩
  | Choice.i =>
    match tinEv c.pi with
    | none => none
    | some ev =>
      if Ev.spawnIn ∈ c.tr then some ⟨c.pm, c.pi + 1, c.po, c.pe, c.tr ++ [ev]⟩
      else none
  | Choice.o =>
    match toutEv c.po with
    | none => none
    | some ev =>
      if Ev.spawnOut ∈ c.tr then some ⟨c.pm, c.pi, c.po + 1, c.pe, c.tr ++ [ev]⟩
      else none
  | Choice.e =>
    match terrEv c.pe with
    | none => none
    | some ev =>
      if Ev.spawnErr ∈ c.tr then some ⟨c.pm, c.pi, c.po, c.pe + 1, c.tr ++ [ev]⟩
      else none

theorem stepFn_sound {c c' : Conf} {ch : Choice} (h : stepFn c ch = some c') :
    Step c c' := by
  cases ch
  case m =>
    rcases hm : mainEv c.pm with _ | ev
    · simp [stepFn, hm] at h
    · simp only [stepFn, hm] at h
      by_cases hcond : ev = Ev.wgWait ∧ ¬ (Ev.stdoutDone ∈ c.tr ∧ Ev.stderrDone ∈ c.tr)
      · simp [hcond] at h
      · rw [if_neg hcond] at h
        have hc' := (Option.some.inj h).symm
        subst hc'
        refine Step.main ev hm ?_
        intro hev
        by_contra hnd
        exact hcond ⟨hev, hnd⟩
  case i =>
    rcases hm : tinEv c.pi with _ | ev
    · simp [stepFn, hm] at h
    · simp only [stepFn, hm] at h
      by_cases hsp : Ev.spawnIn ∈ c.tr
      · rw [if_pos hsp] at h
        have hc' := (Option.some.inj h).symm
        subst hc'
        exact Step.tin ev hm hsp
      · simp [hsp] at h
  case o =>
    rcases hm : toutEv c.po with _ | ev
    · simp [stepFn, hm] at h
    · simp only [stepFn, hm] at h
      by_cases hsp : Ev.spawnOut ∈ c.tr
      · rw [if_pos hsp] at h
        have hc' := (Option.some.inj h).symm
        subst hc'
        exact Step.tout ev hm hsp
      · simp [hsp] at h
  case e =>
    rcases hm : terrEv c.pe with _ | ev
    · simp [stepFn, hm] at h
    · simp only [stepFn, hm] at h
      by_cases hsp : Ev.spawnErr ∈ c.tr
      · rw [if_pos hsp] at h
        have hc' := (Option.some.inj h).symm
        subst hc'
        exact Step.terr ev hm hsp
      · simp [hsp] at h

def runChoices : Conf → List Choice → Option Conf
  | c, [] => some c
  | c, ch :: rest =>
    match stepFn c ch with
    | none => none
    | some c' => runChoices c' rest

theorem runChoices_sound {cs : List Choice} {c c' : Conf}
    (h : runChoices c cs = some c') : Reach c c' := by
  induction cs generalizing c with
  | nil =>
    simp [runChoices] at h
    exact h ▸ Relation.ReflTransGen.refl
  | cons ch rest ih =>
    rcases hm : stepFn c ch with _ | c1
    · simp [runChoices, hm] at h
    · simp only [runChoices, hm] at h
      exact Relation.ReflTransGen.head (stepFn_sound hm) (ih h)

/-- A schedule in which the process wait happens while the stdin-copy task
has not even started: main spawns all three goroutines, the stdout and
stderr goroutines run to completion, and main then joins, waits and reports
without the stdin goroutine ever being scheduled. -/
def schedNoStdin : List Choice :=
  [Choice.m, Choice.m, Choice.m, Choice.m,
   Choice.o, Choice.o, Choice.o,
   Choice.e, Choice.e, Choice.e,
   Choice.m, Choice.m, Choice.m]

def confNoStdin : Conf :=
  ⟨7, 0, 3, 3,
   [Ev.cmdStart, Ev.spawnIn, Ev.spawnOut, Ev.spawnErr,
    Ev.stdoutCopy, Ev.stdoutFlush, Ev.stdoutDone,
    Ev.stderrCopy, Ev.stderrFlush, Ev.stderrDone,
    Ev.wgWait, Ev.cmdWait, Ev.reportExit]⟩

theorem run_schedNoStdin : runChoices initConf schedNoStdin = some confNoStdin := by
  decide

/-- C3: in every schedule of the Pipe Bridge's streaming phase, the
stdout-copy and stderr-copy tasks complete (their `wg.Done`) strictly before
the process wait, and the wait strictly before the exit report; the stdin
channel's close only happens after the stdin-copy task finishes; and the
stdin-copy task's completion is not a precondition for the wait — there is a
schedule in which the wait occurs while the stdin copy has not run. -/
theorem C3_pipe_bridge_join_order :
    (∀ c : Conf, Reach initConf c →
        before Ev.stdoutDone Ev.cmdWait c.tr
        ∧ before Ev.stderrDone Ev.cmdWait c.tr
        ∧ before Ev.cmdWait Ev.reportExit c.tr
        ∧ before Ev.stdinCopy Ev.stdinClose c.tr)
    ∧ (∃ c : Conf, Reach initConf c ∧ Ev.cmdWait ∈ c.tr ∧ Ev.stdinCopy ∉ c.tr) := by
  constructor
  · intro c h
    obtain ⟨_, _, _, b1, b2, b3, b4⟩ := inv_reach h
    exact ⟨b1, b2, b3, b4⟩
  · exact ⟨confNoStdin, runChoices_sound run_schedNoStdin, by decide, by decide⟩

end Remote
